/-
Verification of the raycoon proxy manager against its specification.

The Go source is shallowly embedded: Go byte strings become `List Nat`
(each element a byte value), pure functions become Lean functions, and
fallible Go functions return `Option`/`Except`.  Stateful or concurrent
code (the tunnel daemon, the HTTP fetcher, the batch tester) is embedded
as explicit state passing / event traces parameterised by the outcomes of
the external steps.  Definitions follow the corresponding Go functions
line by line; file and line references are given in the doc comments.
-/
import Mathlib

namespace Raycoon

/-- Go strings are byte sequences; we model them as lists of byte values.
(`GoStr` elements are intended to be `< 256`; where a proof needs this it
is an explicit hypothesis.) -/
abbrev GoStr := List Nat

/-- Embed an ASCII Lean string literal as a Go byte string. -/
def gs (s : String) : GoStr := s.toList.map Char.toNat

/-- Go's `asciiSpace` table used by `strings.TrimSpace`:
tab, newline, vertical tab, form feed, carriage return, space. -/
def isASCIISpace (b : Nat) : Bool :=
  b == 9 || b == 10 || b == 11 || b == 12 || b == 13 || b == 32

/-- `strings.TrimSpace` (ASCII regime): drop leading and trailing
ASCII-space bytes. -/
def goTrimSpace (s : GoStr) : GoStr :=
  (((s.dropWhile isASCIISpace).reverse).dropWhile isASCIISpace).reverse

/-- `strings.Split(s, "\n")`: split a byte string on the newline byte. -/
def goSplitNL (s : GoStr) : List GoStr :=
  s.splitOn 10

/-- Bytewise `strings.ToLower` (ASCII regime): map bytes 65–90 to 97–122. -/
def goToLower (s : GoStr) : GoStr :=
  s.map (fun b => if 65 ≤ b && b ≤ 90 then b + 32 else b)

/-- `strings.HasPrefix`. -/
def goStartsWith (s pre : GoStr) : Bool :=
  decide (pre <+: s)

/- ## Base64 decoding (`encoding/base64`)

`Decoder.decodeBase64` (src/unnamed/part_021 lines 56–86) tries, in
order, `StdEncoding`, `URLEncoding`, `RawStdEncoding`, `RawURLEncoding`.
Go's decoder ignores `\r` and `\n` anywhere in the input, requires `=`
padding to complete the final quantum for the padded encodings, rejects
`=` for the Raw (unpadded) encodings, and (in the default non-strict
mode) ignores non-zero trailing bits of the final quantum. -/

/-- Symbol value in the standard base64 alphabet `A–Z a–z 0–9 + /`. -/
def stdAlphaIndex (b : Nat) : Option Nat :=
  if 65 ≤ b && b ≤ 90 then some (b - 65)
  else if 97 ≤ b && b ≤ 122 then some (b - 97 + 26)
  else if 48 ≤ b && b ≤ 57 then some (b - 48 + 52)
  else if b == 43 then some 62
  else if b == 47 then some 63
  else none

/-- Symbol value in the URL-safe base64 alphabet `A–Z a–z 0–9 - _`. -/
def urlAlphaIndex (b : Nat) : Option Nat :=
  if 65 ≤ b && b ≤ 90 then some (b - 65)
  else if 97 ≤ b && b ≤ 122 then some (b - 97 + 26)
  else if 48 ≤ b && b ≤ 57 then some (b - 48 + 52)
  else if b == 45 then some 62
  else if b == 95 then some 63
  else none

/-- Decode the (already `\r\n`-filtered) symbol stream in quanta of four,
following `base64.Encoding.decodeQuantum`: a final quantum of two or
three symbols needs `=` padding when `padded`, is accepted as one or two
bytes when not; `=` anywhere else is corrupt input. -/
def b64Quanta (alpha : Nat → Option Nat) (padded : Bool) :
    List Nat → Option (List Nat)
  | [] => some []
  | [_] => none
  | [a, b] =>
    if padded then none
    else do
      let va ← alpha a
      let vb ← alpha b
      pure [va * 4 + vb / 16]
  | [a, b, c] =>
    if padded then none
    else do
      let va ← alpha a
      let vb ← alpha b
      let vc ← alpha c
      pure [va * 4 + vb / 16, (vb % 16) * 16 + vc / 4]
  | a :: b :: c :: d :: rest => do
    let va ← alpha a
    let vb ← alpha b
    if c == 61 then
      if padded && d == 61 && rest.isEmpty then
        pure [va * 4 + vb / 16]
      else none
    else do
      let vc ← alpha c
      if d == 61 then
        if padded && rest.isEmpty then
          pure [va * 4 + vb / 16, (vb % 16) * 16 + vc / 4]
        else none
      else do
        let vd ← alpha d
        let tail ← b64Quanta alpha padded rest
        pure ([va * 4 + vb / 16, (vb % 16) * 16 + vc / 4,
               (vc % 4) * 64 + vd] ++ tail)

/-- One `base64.Encoding.DecodeString` call: filter `\r`/`\n`, then decode
in quanta. -/
def b64Decode (alpha : Nat → Option Nat) (padded : Bool) (s : GoStr) :
    Option (List Nat) :=
  b64Quanta alpha padded (s.filter (fun b => !(b == 13 || b == 10)))

/-- `Decoder.decodeBase64` (src/unnamed/part_021 lines 56–86): try the
four encodings in order — standard padded, URL-safe padded, standard
unpadded, URL-safe unpadded — returning the first success. -/
def decodeBase64 (content : GoStr) : Option GoStr :=
  match b64Decode stdAlphaIndex true content with
  | some r => some r
  | none =>
    match b64Decode urlAlphaIndex true content with
    | some r => some r
    | none =>
      match b64Decode stdAlphaIndex false content with
      | some r => some r
      | none =>
        match b64Decode urlAlphaIndex false content with
        | some r => some r
        | none => none

/-- The recognized proxy URI scheme prefixes
(`Decoder.isValidURI`, src/unnamed/part_021 lines 89–111). -/
def protocolPrefixes : List GoStr :=
  [gs "vmess://", gs "vless://", gs "trojan://", gs "ss://",
   gs "shadowsocks://", gs "hysteria://", gs "hysteria2://",
   gs "hy2://", gs "tuic://", gs "wireguard://"]

/-- `Decoder.isValidURI`: the lowercased line starts with one of the
recognized scheme prefixes. -/
def isValidURI (uri : GoStr) : Bool :=
  protocolPrefixes.any (fun p => goStartsWith (goToLower uri) p)

/-- The sentinel `pkgerrors.ErrSubscriptionEmpty`. -/
inductive DecodeErr where
  | subscriptionEmpty
  deriving DecidableEq, Repr

/-- `Decoder.Decode` (src/unnamed/part_021 lines 20–53): error on empty
input; base64-decode (falling back to the raw content on failure); split
on newlines; trim each line; keep non-empty lines that look like proxy
URIs; error if nothing is kept. -/
def decoderDecode (content : GoStr) : Except DecodeErr (List GoStr) :=
  if content.length == 0 then
    .error .subscriptionEmpty
  else
    let decoded :=
      match decodeBase64 content with
      | some d => d
      | none => content
    let lines := goSplitNL decoded
    let uris := (lines.map goTrimSpace).filter
      (fun l => !(l.isEmpty) && isValidURI l)
    if uris.isEmpty then
      .error .subscriptionEmpty
    else
      .ok uris

/-- C5, spec-side restatement: the text is the first base64 success
(otherwise the body as plaintext); the result is exactly the trimmed
non-empty recognized-scheme lines in input order; the empty-subscription
error is returned iff that retained list is empty. -/
def specDecode (content : GoStr) : Except DecodeErr (List GoStr) :=
  let text := (decodeBase64 content).getD content
  let retained := ((goSplitNL text).map goTrimSpace).filter
    (fun l => !(l.isEmpty) && isValidURI l)
  if retained.isEmpty then .error .subscriptionEmpty else .ok retained

/- ## Subscription fetcher (src/unnamed/part_020)

`Fetcher.Fetch` runs `doFetch` for `attempt = 0 .. maxRetries`.  Before
every attempt numbered `≥ 1` it waits `retryDelay × attempt`, aborting
with the context error if the context completes during the wait.  A
successful attempt returns its body.  After a failed attempt the loop
breaks when the context is done or when the error is an `HTTPError` with
a 4xx status; otherwise it retries.  We embed the loop parameterised by
the outcome of each attempt and by the context-done observations. -/

/-- Result of one `doFetch` attempt: body on HTTP 200, `httpErr` with
the status code for any other status, `netErr` for transport errors. -/
inductive FetchOutcome where
  | ok (body : GoStr)
  | httpErr (status : Nat)
  | netErr
  deriving DecidableEq, Repr

/-- Terminal result of `Fetcher.Fetch`. -/
inductive FetchRes where
  | ok (body : GoStr)
  /-- `ctx.Err()` returned from the wait `select`. -/
  | ctxCanceled
  /-- the wrapping `pkgerrors.SubscriptionError` after the loop. -/
  | subscriptionError
  deriving DecidableEq, Repr

/-- `maxRetries` / `retryDelay` of the fetcher (delay in milliseconds). -/
structure FetcherCfg where
  maxRetries : Nat
  retryDelayMS : Nat
  deriving Repr

/-- `DefaultFetcherConfig` (src/unnamed/part_020 lines 31–38):
`MaxRetries: 3`, `RetryDelay: 2 * time.Second`. -/
def defaultFetcherCfg : FetcherCfg := { maxRetries := 3, retryDelayMS := 2000 }

/-- The don't-retry-on-4xx test (src/unnamed/part_020 lines 85–89):
the error is an `*HTTPError` with `400 ≤ StatusCode < 500`. -/
def is4xxOutcome : FetchOutcome → Bool
  | .httpErr s => 400 ≤ s && s < 500
  | _ => false

/-- The retry loop of `Fetcher.Fetch` (src/unnamed/part_020 lines 59–96),
from attempt number `a` with `remaining` further iterations allowed.
`outcome i` is what `doFetch` returns on attempt `i`; `doneW i` is
whether the context completes during the wait preceding attempt `i`;
`doneA i` is whether `ctx.Err() != nil` when checked after a failed
attempt `i`.  Returns (result, number of attempts performed, list of
waits performed, in milliseconds). -/
def fetchAux (cfg : FetcherCfg) (outcome : Nat → FetchOutcome)
    (doneW doneA : Nat → Bool) : Nat → Nat → FetchRes × Nat × List Nat
  | a, remaining =>
    if 0 < a && doneW a then (.ctxCanceled, a, [])
    else
      let w : List Nat := if 0 < a then [cfg.retryDelayMS * a] else []
      match outcome a with
      | .ok body => (.ok body, a + 1, w)
      | o =>
        if doneA a then (.subscriptionError, a + 1, w)
        else if is4xxOutcome o then (.subscriptionError, a + 1, w)
        else
          match remaining with
          | 0 => (.subscriptionError, a + 1, w)
          | r + 1 =>
            let rec' := fetchAux cfg outcome doneW doneA (a + 1) r
            (rec'.1, rec'.2.1, w ++ rec'.2.2)

/-- `Fetcher.Fetch`: the loop starts at attempt 0 with `maxRetries`
further iterations allowed. -/
def fetchGo (cfg : FetcherCfg) (outcome : Nat → FetchOutcome)
    (doneW doneA : Nat → Bool) : FetchRes × Nat × List Nat :=
  fetchAux cfg outcome doneW doneA 0 cfg.maxRetries

/-- `[s, s+1, …, s+n-1]`. -/
def natRange : Nat → Nat → List Nat
  | _, 0 => []
  | s, n + 1 => s :: natRange (s + 1) n

theorem natRange_zero (s : Nat) : natRange s 0 = [] := rfl

theorem natRange_succ (s n : Nat) :
    natRange s (n + 1) = s :: natRange (s + 1) n := rfl

/-- Shape of the wait list at a leaf of the fetch loop that stops right
after attempt `a ≥ 1`. -/
theorem fetch_wait_stop (a : Nat) (f : Nat → Nat) (ha : 0 < a) :
    (if 0 < a then [f a] else []) = (natRange a (a + 1 - a)).map f := by
  have h2 : a + 1 - a = 1 := by omega
  simp [ha, h2, natRange_succ, natRange_zero]

/-- Shape of the wait list when the fetch loop performs attempt `a ≥ 1`
and then recurses. -/
theorem fetch_wait_cons (a n : Nat) (f : Nat → Nat) (ha : 0 < a)
    (h : a + 1 ≤ n) :
    (if 0 < a then [f a] else []) ++ (natRange (a + 1) (n - (a + 1))).map f =
      (natRange a (n - a)).map f := by
  have h2 : n - a = (n - (a + 1)) + 1 := by omega
  simp [ha, h2, natRange_succ]

/-- Invariant of the retry loop from any attempt index `a ≥ 1`: the loop
performs between `a` and `a + r + 1` attempts in total, every attempt it
performs from `a` on is preceded by the linear-backoff wait, and it only
goes past an attempt whose outcome was neither 4xx nor a done context. -/
theorem fetchAux_spec (cfg : FetcherCfg) (outcome : Nat → FetchOutcome)
    (doneW doneA : Nat → Bool) (r : Nat) :
    ∀ a : Nat, 1 ≤ a →
      (fetchAux cfg outcome doneW doneA a r).2.1 ≤ a + r + 1 ∧
      a ≤ (fetchAux cfg outcome doneW doneA a r).2.1 ∧
      (fetchAux cfg outcome doneW doneA a r).2.2 =
        (natRange a ((fetchAux cfg outcome doneW doneA a r).2.1 - a)).map
          (fun i => cfg.retryDelayMS * i) ∧
      (∀ i, a ≤ i → i + 1 < (fetchAux cfg outcome doneW doneA a r).2.1 →
        is4xxOutcome (outcome i) = false ∧ doneA i = false) ∧
      (∀ i, a ≤ i → i < (fetchAux cfg outcome doneW doneA a r).2.1 →
        doneW i = false) := by
  induction r with
  | zero =>
    intro a ha
    unfold fetchAux
    by_cases hw : (0 < a && doneW a) = true
    · simp only [hw, if_true]
      refine ⟨by omega, by omega, ?_, fun i hi hi2 => by omega,
        fun i hi hi2 => by omega⟩
      have h0 : a - a = 0 := by omega
      rw [h0, natRange_zero]
      rfl
    · have hwa : doneW a = false := by
        cases hdw : doneW a with
        | false => rfl
        | true => rw [hdw] at hw; simp [show 0 < a by omega] at hw
      simp only [hw, if_false, Bool.not_eq_true]
      have leaf : ∀ res : FetchRes,
          let t : FetchRes × Nat × List Nat :=
            (res, a + 1, if 0 < a then [cfg.retryDelayMS * a] else [])
          t.2.1 ≤ a + 0 + 1 ∧ a ≤ t.2.1 ∧
          t.2.2 = (natRange a (t.2.1 - a)).map
            (fun i => cfg.retryDelayMS * i) ∧
          (∀ i, a ≤ i → i + 1 < t.2.1 →
            is4xxOutcome (outcome i) = false ∧ doneA i = false) ∧
          (∀ i, a ≤ i → i < t.2.1 → doneW i = false) := by
        intro res
        dsimp only
        refine ⟨by omega, by omega, fetch_wait_stop a _ (by omega),
          fun i hi hi2 => by omega, fun i hi hi2 => ?_⟩
        have hia : i = a := by omega
        subst hia
        exact hwa
      cases houtcome : outcome a with
      | ok body => exact leaf (.ok body)
      | httpErr st =>
        by_cases hda : doneA a = true
        · simp only [hda, if_true]
          exact leaf .subscriptionError
        · simp only [hda, if_false, Bool.not_eq_true]
          by_cases h4 : is4xxOutcome (FetchOutcome.httpErr st) = true
          · simp only [h4, if_true]
            exact leaf .subscriptionError
          · simp only [h4, if_false, Bool.not_eq_true]
            exact leaf .subscriptionError
      | netErr =>
        by_cases hda : doneA a = true
        · simp only [hda, if_true]
          exact leaf .subscriptionError
        · simp only [hda, if_false, Bool.not_eq_true, is4xxOutcome]
          exact leaf .subscriptionError
  | succ r ih =>
    intro a ha
    unfold fetchAux
    by_cases hw : (0 < a && doneW a) = true
    · simp only [hw, if_true]
      refine ⟨by omega, by omega, ?_, fun i hi hi2 => by omega,
        fun i hi hi2 => by omega⟩
      have h0 : a - a = 0 := by omega
      rw [h0, natRange_zero]
      rfl
    · have hwa : doneW a = false := by
        cases hdw : doneW a with
        | false => rfl
        | true => rw [hdw] at hw; simp [show 0 < a by omega] at hw
      simp only [hw, if_false, Bool.not_eq_true]
      have leaf : ∀ res : FetchRes,
          let t : FetchRes × Nat × List Nat :=
            (res, a + 1, if 0 < a then [cfg.retryDelayMS * a] else [])
          t.2.1 ≤ a + (r + 1) + 1 ∧ a ≤ t.2.1 ∧
          t.2.2 = (natRange a (t.2.1 - a)).map
            (fun i => cfg.retryDelayMS * i) ∧
          (∀ i, a ≤ i → i + 1 < t.2.1 →
            is4xxOutcome (outcome i) = false ∧ doneA i = false) ∧
          (∀ i, a ≤ i → i < t.2.1 → doneW i = false) := by
        intro res
        dsimp only
        refine ⟨by omega, by omega, fetch_wait_stop a _ (by omega),
          fun i hi hi2 => by omega, fun i hi hi2 => ?_⟩
        have hia : i = a := by omega
        subst hia
        exact hwa
      have recCase :
          (is4xxOutcome (outcome a) = false) → (doneA a = false) →
          let t := fetchAux cfg outcome doneW doneA (a + 1) r
          let t2 : FetchRes × Nat × List Nat :=
            (t.1, t.2.1, (if 0 < a then [cfg.retryDelayMS * a] else []) ++ t.2.2)
          t2.2.1 ≤ a + (r + 1) + 1 ∧ a ≤ t2.2.1 ∧
          t2.2.2 = (natRange a (t2.2.1 - a)).map
            (fun i => cfg.retryDelayMS * i) ∧
          (∀ i, a ≤ i → i + 1 < t2.2.1 →
            is4xxOutcome (outcome i) = false ∧ doneA i = false) ∧
          (∀ i, a ≤ i → i < t2.2.1 → doneW i = false) := by
        intro h4f hdaf
        dsimp only
        obtain ⟨ih1, ih2, ih3, ih4, ih5⟩ := ih (a + 1) (by omega)
        refine ⟨by omega, by omega, ?_, ?_, ?_⟩
        · rw [ih3]
          exact fetch_wait_cons a _ _ (by omega) (by omega)
        · intro i hi hi2
          by_cases hia : i = a
          · subst hia
            exact ⟨h4f, hdaf⟩
          · exact ih4 i (by omega) hi2
        · intro i hi hi2
          by_cases hia : i = a
          · subst hia
            exact hwa
          · exact ih5 i (by omega) hi2
      cases houtcome : outcome a with
      | ok body => exact leaf (.ok body)
      | httpErr st =>
        by_cases hda : doneA a = true
        · simp only [hda, if_true]
          exact leaf .subscriptionError
        · by_cases h4 : is4xxOutcome (FetchOutcome.httpErr st) = true
          · simp only [hda, h4, if_true, if_false, Bool.not_eq_true]
            exact leaf .subscriptionError
          · simp only [hda, h4, if_false, Bool.not_eq_true]
            exact recCase (by rw [houtcome]; simpa using h4)
              (by simpa using hda)
      | netErr =>
        by_cases hda : doneA a = true
        · simp only [hda, if_true]
          exact leaf .subscriptionError
        · simp only [hda, if_false, Bool.not_eq_true, is4xxOutcome]
          exact recCase (by rw [houtcome]; rfl) (by simpa using hda)

end Raycoon

section C6

open Raycoon

/-- C6: `Fetch(url)` performs at most `1 + maxRetries` attempts (default
`maxRetries` 3), waits `retryDelay × attempt` before the attempt numbered
`attempt ≥ 1` (`retryDelay` default 2 s), makes no further attempt after
any response with a 4xx status code (in particular a 404 is never
retried), and makes no further attempt once the cancellation context is
done (whether observed after an attempt or during a backoff wait). -/
theorem fetch_retry_policy (cfg : FetcherCfg) (outcome : Nat → FetchOutcome)
    (doneW doneA : Nat → Bool) :
    (fetchGo cfg outcome doneW doneA).2.1 ≤ cfg.maxRetries + 1 ∧
    (fetchGo cfg outcome doneW doneA).2.2 =
      (natRange 1 ((fetchGo cfg outcome doneW doneA).2.1 - 1)).map
        (fun i => cfg.retryDelayMS * i) ∧
    (∀ i, i + 1 < (fetchGo cfg outcome doneW doneA).2.1 →
      is4xxOutcome (outcome i) = false ∧ doneA i = false) ∧
    (∀ i, 1 ≤ i → i < (fetchGo cfg outcome doneW doneA).2.1 →
      doneW i = false) ∧
    defaultFetcherCfg.maxRetries = 3 ∧ defaultFetcherCfg.retryDelayMS = 2000 := by
  have hc : (decide (0 < 0) && doneW 0) = false := by simp
  have leaf0 : ∀ res : FetchRes, ∀ m : Nat,
      let t : FetchRes × Nat × List Nat := (res, 1, [])
      t.2.1 ≤ m + 1 ∧
      t.2.2 = (natRange 1 (t.2.1 - 1)).map (fun i => cfg.retryDelayMS * i) ∧
      (∀ i, i + 1 < t.2.1 → is4xxOutcome (outcome i) = false ∧
        doneA i = false) ∧
      (∀ i, 1 ≤ i → i < t.2.1 → doneW i = false) := by
    intro res m
    dsimp only
    refine ⟨by omega, by rw [show (1 : Nat) - 1 = 0 from rfl, natRange_zero]; rfl,
      fun i hi => absurd hi (by omega), fun i hi hi2 => absurd hi2 (by omega)⟩
  unfold fetchGo
  cases hr : cfg.maxRetries with
  | zero =>
    unfold fetchAux
    simp only [hc, if_false, Bool.false_eq_true]
    cases houtcome : outcome 0 with
    | ok body => exact ⟨(leaf0 _ 0).1, (leaf0 (.ok body) 0).2.1,
        (leaf0 (.ok body) 0).2.2.1, (leaf0 (.ok body) 0).2.2.2, rfl, rfl⟩
    | httpErr st =>
      by_cases hda : doneA 0 = true <;>
        by_cases h4 : is4xxOutcome (FetchOutcome.httpErr st) = true <;>
          simp only [hda, h4, if_true, if_false, Bool.not_eq_true] <;>
            exact ⟨(leaf0 .subscriptionError 0).1,
              (leaf0 .subscriptionError 0).2.1,
              (leaf0 .subscriptionError 0).2.2.1,
              (leaf0 .subscriptionError 0).2.2.2, rfl, rfl⟩
    | netErr =>
      by_cases hda : doneA 0 = true <;>
        simp only [hda, if_true, if_false, Bool.not_eq_true, is4xxOutcome] <;>
          exact ⟨(leaf0 .subscriptionError 0).1,
            (leaf0 .subscriptionError 0).2.1,
            (leaf0 .subscriptionError 0).2.2.1,
            (leaf0 .subscriptionError 0).2.2.2, rfl, rfl⟩
  | succ r =>
    unfold fetchAux
    simp only [hc, if_false, Bool.false_eq_true]
    have recCase0 :
        (is4xxOutcome (outcome 0) = false) → (doneA 0 = false) →
        let t := fetchAux cfg outcome doneW doneA 1 r
        let t2 : FetchRes × Nat × List Nat := (t.1, t.2.1, [] ++ t.2.2)
        t2.2.1 ≤ r + 1 + 1 ∧
        t2.2.2 = (natRange 1 (t2.2.1 - 1)).map (fun i => cfg.retryDelayMS * i) ∧
        (∀ i, i + 1 < t2.2.1 → is4xxOutcome (outcome i) = false ∧
          doneA i = false) ∧
        (∀ i, 1 ≤ i → i < t2.2.1 → doneW i = false) := by
      intro h4f hdaf
      dsimp only
      obtain ⟨ih1, ih2, ih3, ih4, ih5⟩ :=
        fetchAux_spec cfg outcome doneW doneA r 1 (by omega)
      refine ⟨by omega, by simpa using ih3, ?_, ?_⟩
      · intro i hi
        by_cases hi0 : i = 0
        · subst hi0
          exact ⟨h4f, hdaf⟩
        · exact ih4 i (by omega) hi
      · intro i hi hi2
        exact ih5 i hi hi2
    cases houtcome : outcome 0 with
    | ok body => exact ⟨(leaf0 _ (r+1)).1, (leaf0 (.ok body) (r+1)).2.1,
        (leaf0 (.ok body) (r+1)).2.2.1, (leaf0 (.ok body) (r+1)).2.2.2,
        rfl, rfl⟩
    | httpErr st =>
      by_cases hda : doneA 0 = true
      · simp only [hda, if_true]
        exact ⟨(leaf0 .subscriptionError (r+1)).1,
          (leaf0 .subscriptionError (r+1)).2.1,
          (leaf0 .subscriptionError (r+1)).2.2.1,
          (leaf0 .subscriptionError (r+1)).2.2.2, rfl, rfl⟩
      · by_cases h4 : is4xxOutcome (FetchOutcome.httpErr st) = true
        · simp only [hda, h4, if_true, if_false, Bool.not_eq_true]
          exact ⟨(leaf0 .subscriptionError (r+1)).1,
            (leaf0 .subscriptionError (r+1)).2.1,
            (leaf0 .subscriptionError (r+1)).2.2.1,
            (leaf0 .subscriptionError (r+1)).2.2.2, rfl, rfl⟩
        · simp only [hda, h4, if_false, Bool.not_eq_true]
          obtain ⟨k1, k2, k3, k4⟩ := recCase0 (by rw [houtcome]; simpa using h4)
            (by simpa using hda)
          exact ⟨k1, k2, k3, k4, rfl, rfl⟩
    | netErr =>
      by_cases hda : doneA 0 = true
      · simp only [hda, if_true]
        exact ⟨(leaf0 .subscriptionError (r+1)).1,
          (leaf0 .subscriptionError (r+1)).2.1,
          (leaf0 .subscriptionError (r+1)).2.2.1,
          (leaf0 .subscriptionError (r+1)).2.2.2, rfl, rfl⟩
      · simp only [hda, if_false, Bool.not_eq_true, is4xxOutcome]
        obtain ⟨k1, k2, k3, k4⟩ := recCase0 (by rw [houtcome]; rfl)
          (by simpa using hda)
        exact ⟨k1, k2, k3, k4, rfl, rfl⟩

/-- C6 witness: with the default configuration and every attempt failing
with a transport error on a never-done context, attempt 1 happens (so the
inner hypotheses of the theorem are satisfiable), and the theorem yields
that attempt 0 was neither 4xx nor stopped by the context. -/
theorem fetch_retry_policy_witness :
    0 + 1 < (fetchGo defaultFetcherCfg (fun _ => .netErr) (fun _ => false)
      (fun _ => false)).2.1 ∧
    is4xxOutcome ((fun _ : Nat => FetchOutcome.netErr) 0) = false ∧
    (fun _ : Nat => false) 0 = false := by
  refine ⟨by decide, ?_⟩
  exact (fetch_retry_policy defaultFetcherCfg (fun _ => .netErr)
    (fun _ => false) (fun _ => false)).2.2.1 0 (by decide)

end C6

section C5

open Raycoon

example : decoderDecode (gs "vmess://abc\nxxx\n  vless://d  ") =
    .ok [gs "vmess://abc", gs "vless://d"] := by rfl

example : decoderDecode (gs "dmxlc3M6Ly94") = .ok [gs "vless://x"] := by
  rfl

example : decoderDecode (gs "") = .error .subscriptionEmpty := by rfl

example : decoderDecode (gs "aGVsbG8=") = .error .subscriptionEmpty := by
  rfl

/-- C5: `Decode(b)` first tries base64 decoding of the whole body under
the four variants standard padded, URL-safe padded, standard unpadded,
URL-safe unpadded, using the first success as the text and otherwise
treating `b` as plaintext; it then returns exactly the trimmed non-empty
lines whose lowercase prefix is one of the recognized protocol schemes,
in input order; and it returns the "empty subscription" error if and
only if that retained list is empty. -/
theorem decode_matches_spec (content : GoStr) :
    decoderDecode content = specDecode content := by
  unfold decoderDecode specDecode decodeBase64
  rcases content with _ | ⟨b, rest⟩
  · rfl
  · simp only [List.length_cons, Nat.succ_ne_zero, beq_iff_eq,
      if_false, reduceIte]
    cases b64Decode stdAlphaIndex true (b :: rest) <;>
      cases b64Decode urlAlphaIndex true (b :: rest) <;>
        cases b64Decode stdAlphaIndex false (b :: rest) <;>
          cases b64Decode urlAlphaIndex false (b :: rest) <;>
            simp [Option.getD]

end C5

namespace Raycoon

/- ## Tunnel daemon body (src/unnamed/part_013, `RunDaemon`)

`RunDaemon` performs its setup steps strictly in sequence, rolling back
the completed steps in reverse order when a later step fails, and writes
the state file only after DNS configuration succeeded.  We embed it as a
function from the success/failure of each fallible step to the trace of
externally visible events, in program order. -/

/-- Externally visible events of one `RunDaemon` execution. -/
inductive TunEv where
  /-- `checkPrivileges` succeeded. -/
  | privCheck
  /-- `detectGateway` succeeded. -/
  | gwDetect
  /-- `engine.Start()` was called. -/
  | engineStart
  /-- a new tun/utun interface was found. -/
  | devFound
  /-- `configureTUNAddress` succeeded (TUN address configured). -/
  | tunAddrCfg
  /-- `addBypassRoutes` succeeded (bypass host routes added). -/
  | bypassAdd
  /-- `setDefaultRouteTUN` succeeded (the two /1 overlay routes). -/
  | overlaySet
  /-- `configureDNS` succeeded (system DNS set). -/
  | dnsSet
  /-- `saveState` succeeded (the state file was written). -/
  | stateWrite
  /-- `restoreDNS` was called. -/
  | dnsRestore
  /-- `restoreDefaultRoute` was called. -/
  | routeRestore
  /-- `removeBypassRoutes` was called. -/
  | bypassRemove
  /-- `engine.Stop()` was called. -/
  | engineStop
  /-- `removeState` was called (state file removed). -/
  | stateRemove
  deriving DecidableEq, Repr

/-- Success/failure of each fallible step of `RunDaemon`. -/
structure DaemonSteps where
  privOk : Bool
  gwOk : Bool
  devOk : Bool
  tunAddrOk : Bool
  bypassOk : Bool
  routeOk : Bool
  dnsOk : Bool
  saveOk : Bool
  deriving DecidableEq

/-- The event trace of `RunDaemon` (src/unnamed/part_013 lines 31–186):
each step runs only if all previous ones succeeded; on failure the
completed steps are rolled back in reverse order and the function
returns; after a successful `saveState` the daemon blocks and, once
stopped, cleans up in reverse order and removes the state file. -/
def runDaemonTrace (s : DaemonSteps) : List TunEv :=
  if !s.privOk then [] else
  .privCheck ::
    (if !s.gwOk then [] else
    .gwDetect :: .engineStart ::
      (if !s.devOk then [.engineStop] else
      .devFound ::
        (if !s.tunAddrOk then [.engineStop] else
        .tunAddrCfg ::
          (if !s.bypassOk then [.engineStop] else
          .bypassAdd ::
            (if !s.routeOk then [.bypassRemove, .engineStop] else
            .overlaySet ::
              (if !s.dnsOk then [.routeRestore, .bypassRemove, .engineStop] else
              .dnsSet ::
                (if !s.saveOk then
                  [.dnsRestore, .routeRestore, .bypassRemove, .engineStop]
                else
                  [.stateWrite, .dnsRestore, .routeRestore, .bypassRemove,
                   .engineStop, .stateRemove])))))))

end Raycoon

section C2

open Raycoon

/-- C2: in `RunDaemon`, the state file is written only after the TUN
address is configured, the bypass host routes are added, the two /1
overlay default routes are installed, and the system DNS is set: in every
execution whose trace contains the state-file write, each of those four
steps completed at a strictly earlier position of the trace. -/
theorem daemon_writes_state_last (s : DaemonSteps)
    (h : TunEv.stateWrite ∈ runDaemonTrace s) :
    TunEv.tunAddrCfg ∈
        (runDaemonTrace s).take ((runDaemonTrace s).indexOf .stateWrite) ∧
    TunEv.bypassAdd ∈
        (runDaemonTrace s).take ((runDaemonTrace s).indexOf .stateWrite) ∧
    TunEv.overlaySet ∈
        (runDaemonTrace s).take ((runDaemonTrace s).indexOf .stateWrite) ∧
    TunEv.dnsSet ∈
        (runDaemonTrace s).take ((runDaemonTrace s).indexOf .stateWrite) := by
  obtain ⟨p, g, d, ta, bp, rt, dn, sv⟩ := s
  revert h
  cases p <;> cases g <;> cases d <;> cases ta <;> cases bp <;> cases rt <;>
    cases dn <;> cases sv <;> decide

/-- C2 witness: the all-steps-succeed execution writes the state file,
and the theorem places the four setup steps before the write. -/
theorem daemon_writes_state_last_witness :
    TunEv.stateWrite ∈ runDaemonTrace ⟨true, true, true, true, true, true,
      true, true⟩ ∧
    TunEv.dnsSet ∈
      (runDaemonTrace ⟨true, true, true, true, true, true, true, true⟩).take
        ((runDaemonTrace ⟨true, true, true, true, true, true, true,
          true⟩).indexOf .stateWrite) :=
  ⟨by decide,
   (daemon_writes_state_last _ (by decide)).2.2.2⟩

end C2

namespace Raycoon

/- ## Parent-side tunnel `Enable` readiness poll (src/unnamed/part_012)

`Enable` spawns the daemon with `cmd.Start()` and then polls for the
state file (lines 94–107).  Inside the loop it checks
`cmd.ProcessState != nil` to detect a prematurely exited child.  In Go,
`exec.Cmd.ProcessState` is populated only by `Wait` (or `Run`); `Enable`
never calls `Wait` on `cmd`, so this observation is `nil` on every
iteration regardless of whether the child has exited.  The embedding
makes that observation a named constant. -/

/-- What `cmd.ProcessState != nil` evaluates to inside `Enable`'s poll
loop.  `ProcessState` is only set by `cmd.Wait()`, which `Enable` never
calls, so the check is always false — even when the child has exited. -/
def cmdProcessStateNonNil : Bool := false

/-- Result of `Enable`'s readiness poll. -/
inductive EnableRes where
  /-- the state file appeared: `Enable` returns nil. -/
  | ready
  /-- the `TUN daemon exited prematurely — check <log>` error. -/
  | prematureExitErr
  /-- the `TUN daemon did not become ready within 15 s` timeout error
  (after killing the child). -/
  | timeoutErr
  deriving DecidableEq, Repr

/-- The poll loop of `Enable` (src/unnamed/part_012 lines 94–107):
at each 300 ms tick before the 15 s deadline, return success if the
state file exists, else return the premature-exit error if
`cmd.ProcessState != nil`, else sleep and retry; once the deadline
passes, kill the child and return the timeout error.  `stateFile t` is
whether the state file exists at tick `t`; `fuel` is the number of ticks
remaining before the deadline. -/
def enablePoll (stateFile : Nat → Bool) : Nat → Nat → EnableRes
  | _, 0 => .timeoutErr
  | t, fuel + 1 =>
    if stateFile t then .ready
    else if cmdProcessStateNonNil then .prematureExitErr
    else enablePoll stateFile (t + 1) fuel

end Raycoon

section C3

open Raycoon

/-- C3 (code bug): when the spawned daemon child exits before the state
file appears — so the state file never exists at any tick — `Enable`
never returns the startup (premature-exit) error: it always runs the
poll to exhaustion and returns the timeout error, because
`cmd.ProcessState` stays nil when `Wait` is never called.  This holds
for every deadline and start tick. -/
theorem enable_dead_child_times_out (t fuel : Nat) :
    enablePoll (fun _ => false) t fuel = .timeoutErr ∧
    EnableRes.timeoutErr ≠ EnableRes.prematureExitErr := by
  refine ⟨?_, by decide⟩
  induction fuel generalizing t with
  | zero => rfl
  | succ n ih =>
    unfold enablePoll
    simpa [cmdProcessStateNonNil] using ih (t + 1)

end C3

namespace Raycoon

/- ## Active-connection lookup (src/unnamed/part_005, `getActiveConnection`) -/

/-- The `active_connection` singleton row (models.ActiveConnection). -/
structure ActiveConnRow where
  id : Nat
  configID : Nat
  coreType : GoStr
  vpnMode : GoStr
  startedAt : Nat
  deriving DecidableEq, Repr

/-- An opaque database error (anything other than `sql.ErrNoRows`). -/
structure DBErr where
  msg : GoStr
  deriving DecidableEq, Repr

/-- Outcome of `QueryRowContext(...).Scan(...)` for the singleton query:
`sql.ErrNoRows`, some other error, or a scanned row. -/
inductive ScanOutcome where
  | noRows
  | err (e : DBErr)
  | row (c : ActiveConnRow)
  deriving DecidableEq, Repr

/-- `getActiveConnection` (src/unnamed/part_005 lines 772–785): map
`sql.ErrNoRows` to `(nil, nil)`, any other error to `(nil, err)`, and a
scanned row to `(conn, nil)`. -/
def getActiveConnection (q : ScanOutcome) : Except DBErr (Option ActiveConnRow) :=
  match q with
  | .noRows => .ok none
  | .err e => .error e
  | .row c => .ok (some c)

end Raycoon

section C10

open Raycoon

/-- C10: when no active-connection row exists, `GetActiveConnection`
returns a nil connection and a nil error (absence is not an error),
while any other query failure is returned as an error (and a present row
is returned without error). -/
theorem getActiveConnection_absence_not_error :
    getActiveConnection .noRows = .ok none ∧
    (∀ e : DBErr, getActiveConnection (.err e) = .error e) ∧
    (∀ c : ActiveConnRow, getActiveConnection (.row c) = .ok (some c)) :=
  ⟨rfl, fun _ => rfl, fun _ => rfl⟩

end C10

namespace Raycoon

/- ## Subscription update transaction
(src/unnamed/part_019 `Manager.UpdateGroup`, src/unnamed/part_005
`deleteConfigsByGroup` / `createConfig`)

Inside the transaction, `UpdateGroup` first runs
`DELETE FROM configs WHERE group_id = ? AND from_subscription = 1`, then
for every decoded URI that the registry parses it inserts a row with
`GroupID = groupID`, `FromSubscription = true`, `Enabled = true`.  The
`configs` table id is `INTEGER PRIMARY KEY AUTOINCREMENT`
(migrations.go), so inserted rows always get ids strictly greater than
every id ever used; we model the id source as `maxId store + 1` counting
up.  Parse failures skip the URI without aborting the batch. -/

/-- One row of the `configs` table (the fields relevant to the
invariant; the remaining columns ride along unchanged with the row). -/
structure CfgRow where
  id : Nat
  groupID : Nat
  fromSubscription : Bool
  enabled : Bool
  name : GoStr
  protocol : GoStr
  address : GoStr
  port : Nat
  deriving DecidableEq, Repr

/-- Largest id present in the table. -/
def maxId (rows : List CfgRow) : Nat :=
  rows.foldr (fun c m => Nat.max c.id m) 0

/-- `UpdateGroup` lines 105–108: set `GroupID`, `FromSubscription`,
`Enabled` on the parsed config; `createConfig` assigns the fresh id. -/
def installCfg (gid nid : Nat) (p : CfgRow) : CfgRow :=
  { p with
    id := nid
    groupID := gid
    fromSubscription := true
    enabled := true }

/-- The per-URI loop of `UpdateGroup` (lines 97–118): parse each URI,
skip failures, insert successes with consecutive fresh ids.  Returns the
inserted rows in insertion order. -/
def createLoop (parse : GoStr → Option CfgRow) (gid : Nat) :
    List GoStr → Nat → List CfgRow
  | [], _ => []
  | u :: rest, nid =>
    match parse u with
    | none => createLoop parse gid rest nid
    | some p => installCfg gid nid p :: createLoop parse gid rest (nid + 1)

/-- `deleteConfigsByGroup(gid, fromSubscriptionOnly=true)` keeps a row
iff it is not (in the group and from the subscription). -/
def keepRow (gid : Nat) (c : CfgRow) : Bool :=
  !(c.groupID == gid && c.fromSubscription)

/-- The config-table effect of a successful `UpdateGroup` transaction:
delete the group's from-subscription rows, then insert the parsed feed
entries with fresh ids. -/
def updateGroupTx (parse : GoStr → Option CfgRow) (gid : Nat)
    (uris : List GoStr) (store : List CfgRow) : List CfgRow :=
  store.filter (keepRow gid) ++ createLoop parse gid uris (maxId store + 1)

theorem mem_createLoop {parse : GoStr → Option CfgRow} {gid : Nat}
    {uris : List GoStr} {nid : Nat} {c : CfgRow}
    (h : c ∈ createLoop parse gid uris nid) :
    ∃ u ∈ uris, ∃ p, parse u = some p ∧
      ∃ m, nid ≤ m ∧ c = installCfg gid m p := by
  induction uris generalizing nid with
  | nil => simp [createLoop] at h
  | cons u rest ih =>
    rw [createLoop] at h
    cases hp : parse u with
    | none =>
      rw [hp] at h
      obtain ⟨v, hv, p, hps, m, hm, hc⟩ := ih h
      exact ⟨v, List.mem_cons_of_mem _ hv, p, hps, m, hm, hc⟩
    | some p =>
      rw [hp] at h
      rcases List.mem_cons.mp h with hc | h2
      · exact ⟨u, List.mem_cons_self _ _, p, hp, nid, Nat.le_refl _, hc⟩
      · obtain ⟨v, hv, q, hqs, m, hm, hc⟩ := ih h2
        exact ⟨v, List.mem_cons_of_mem _ hv, q, hqs, m, by omega, hc⟩

theorem le_maxId {store : List CfgRow} {c : CfgRow} (h : c ∈ store) :
    c.id ≤ maxId store := by
  induction store with
  | nil => simp at h
  | cons d rest ih =>
    rcases List.mem_cons.mp h with hc | h2
    · subst hc
      exact Nat.le_max_left _ _
    · exact Nat.le_trans (ih h2) (Nat.le_max_right _ _)

end Raycoon

section C1

open Raycoon

/-- C1: after every successful `UpdateGroup(g)`: the user-added
(`from_subscription=false`) rows of g are exactly, and identically, the
ones from before the update; every `from_subscription=true` row of g was
created from a URI of the decoded feed during this update (carrying the
parsed fields, with `enabled=true`); and no `from_subscription=true` row
of g from before the update remains. -/
theorem updateGroup_feed_slice_replacement (parse : GoStr → Option CfgRow)
    (g : Nat) (uris : List GoStr) (store : List CfgRow) :
    ((updateGroupTx parse g uris store).filter
        (fun c => c.groupID == g && !c.fromSubscription) =
      store.filter (fun c => c.groupID == g && !c.fromSubscription)) ∧
    (∀ c ∈ updateGroupTx parse g uris store,
      c.groupID = g → c.fromSubscription = true →
        ∃ u ∈ uris, ∃ p, parse u = some p ∧
          c.name = p.name ∧ c.protocol = p.protocol ∧
          c.address = p.address ∧ c.port = p.port ∧ c.enabled = true) ∧
    (∀ c ∈ store, c.groupID = g → c.fromSubscription = true →
      c ∉ updateGroupTx parse g uris store) := by
  refine ⟨?_, ?_, ?_⟩
  · unfold updateGroupTx
    rw [List.filter_append]
    have hnew : (createLoop parse g uris (maxId store + 1)).filter
        (fun c => c.groupID == g && !c.fromSubscription) = [] := by
      rw [List.filter_eq_nil_iff]
      intro c hc
      obtain ⟨u, _, p, _, m, _, hcm⟩ := mem_createLoop hc
      subst hcm
      simp [installCfg]
    rw [hnew, List.append_nil, List.filter_filter]
    apply List.filter_congr
    intro c _
    cases hg : (c.groupID == g) <;> cases hs : c.fromSubscription <;>
      simp [keepRow, hg, hs]
  · intro c hc hg hs
    unfold updateGroupTx at hc
    rcases List.mem_append.mp hc with hk | hn
    · have := List.of_mem_filter hk
      rw [keepRow] at this
      simp [hg, hs] at this
    · obtain ⟨u, hu, p, hp, m, _, hcm⟩ := mem_createLoop hn
      subst hcm
      exact ⟨u, hu, p, hp, rfl, rfl, rfl, rfl, rfl⟩
  · intro c hcs hg hs hmem
    unfold updateGroupTx at hmem
    rcases List.mem_append.mp hmem with hk | hn
    · have := List.of_mem_filter hk
      rw [keepRow] at this
      simp [hg, hs] at this
    · obtain ⟨u, _, p, _, m, hm, hcm⟩ := mem_createLoop hn
      have hid : c.id ≤ maxId store := le_maxId hcs
      have : c.id = m := by rw [hcm]; rfl
      omega

/-- C1 witness: with a concrete store holding one user-added row and one
old subscription row in group 1, and a feed whose parser accepts
nothing, the old subscription row is gone after the update. -/
theorem updateGroup_feed_slice_replacement_witness :
    (⟨7, 1, true, true, gs "old", gs "vless", gs "o.example.com", 443⟩ :
        CfgRow) ∈
      [(⟨3, 1, false, true, gs "mine", gs "vless", gs "m.example.com", 443⟩ :
          CfgRow),
        ⟨7, 1, true, true, gs "old", gs "vless", gs "o.example.com", 443⟩] ∧
    (⟨7, 1, true, true, gs "old", gs "vless", gs "o.example.com", 443⟩ :
        CfgRow) ∉
      updateGroupTx (fun _ => none) 1 [gs "vless://new"]
        [⟨3, 1, false, true, gs "mine", gs "vless", gs "m.example.com", 443⟩,
          ⟨7, 1, true, true, gs "old", gs "vless", gs "o.example.com", 443⟩] :=
  ⟨by decide,
   (updateGroup_feed_slice_replacement (fun _ => none) 1 [gs "vless://new"]
      [⟨3, 1, false, true, gs "mine", gs "vless", gs "m.example.com", 443⟩,
        ⟨7, 1, true, true, gs "old", gs "vless", gs "o.example.com", 443⟩]).2.2
    _ (by decide) rfl rfl⟩

end C1

namespace Raycoon

/- ## Batch latency tester (src/internal/latency/tester.go)

`TestBatch` stores each completed result at the *input* index of its
config (`results[idx] = result`, line 112); the completion order of the
concurrent workers influences only the progress callbacks and the
interleaving of the counter increments, not the contents of `results`
nor the counters' final values.  It then sorts with `sort.Slice`
(lines 140–152).  Go's `sort.Slice` runs pdqsort, which for slices of
fewer than 13 elements is exactly the insertion sort embedded below
(stable); for longer slices Go guarantees sortedness but not
stability. -/

/-- One element of `TestBatch`'s `results` slice: the config id together
with the `models.LatencyTest` outcome (success flag; latency in ms,
present exactly on success). -/
structure TRes where
  cfgID : Nat
  success : Bool
  latency : Option Nat
  deriving DecidableEq, Repr

/-- `TestSingle` (tester.go lines 60–87): a strategy success yields a
success row carrying the measured latency, a strategy error yields a
failure row. -/
def testSingleRow (id : Nat) (outcome : Option Nat) : TRes :=
  match outcome with
  | some ms => ⟨id, true, some ms⟩
  | none => ⟨id, false, none⟩

/-- The `sort.Slice` comparator (tester.go lines 140–152): successes
before failures; among successes, ascending latency; failures mutually
unordered. -/
def lessRes (ri rj : TRes) : Bool :=
  if ri.success && !rj.success then true
  else if !ri.success && rj.success then false
  else if ri.success && rj.success then
    decide (ri.latency.getD 0 < rj.latency.getD 0)
  else false

/-- Insert `x` into the reversed sorted prefix `accRev`, sinking past
every element it is less than — the inner loop of Go's insertion sort
(`for j := i; j > a && data.Less(j, j-1); j--`). -/
def insertRevAux {α : Type} (lt : α → α → Bool) (x : α) :
    List α → List α
  | [] => [x]
  | y :: ys => if lt x y then y :: insertRevAux lt x ys else x :: y :: ys

/-- Go's insertion sort (the `sort.Slice`/pdqsort path taken for slices
shorter than 13 elements), as a left fold maintaining the reversed
sorted prefix. -/
def goInsertionSort {α : Type} (lt : α → α → Bool) (l : List α) : List α :=
  (l.foldl (fun accRev x => insertRevAux lt x accRev) []).reverse

/-- `BatchResult` (tester.go lines 21–27, without the wallclock
duration). -/
structure BatchRes where
  results : List TRes
  tested : Nat
  succeeded : Nat
  failed : Nat
  deriving DecidableEq, Repr

/-- `TestBatch` (tester.go lines 90–156) on inputs that all complete:
per-input rows at input indices, success/failure counters, then the
comparator sort. -/
def testBatchGo (outcomes : List (Nat × Option Nat)) : BatchRes :=
  let rows := outcomes.map (fun o => testSingleRow o.1 o.2)
  { results := goInsertionSort lessRes rows
    tested := rows.length
    succeeded := (rows.filter (fun r => r.success)).length
    failed := (rows.filter (fun r => !r.success)).length }

/-- `TestBatch` with the workers' completion order made explicit.  The
completion order determines the progress-callback sequence and the
interleaving of the mutex-protected counter increments, but the code
stores each result at its input index and derives the counters by
commutative increments, so the returned `BatchResult` does not depend on
it. -/
def testBatchSched (outcomes : List (Nat × Option Nat))
    (completionOrder : List Nat) : BatchRes :=
  testBatchGo outcomes

theorem mem_insertRevAux {α : Type} {lt : α → α → Bool} {x a : α}
    {r : List α} (h : a ∈ insertRevAux lt x r) : a = x ∨ a ∈ r := by
  induction r with
  | nil => simpa [insertRevAux] using h
  | cons y ys ih =>
    rw [insertRevAux] at h
    by_cases hxy : lt x y = true
    · rw [if_pos hxy] at h
      rcases List.mem_cons.mp h with hay | h2
      · exact Or.inr (by simp [hay])
      · rcases ih h2 with hax | har
        · exact Or.inl hax
        · exact Or.inr (List.mem_cons_of_mem _ har)
    · rw [if_neg hxy] at h
      rcases List.mem_cons.mp h with hax | h2
      · exact Or.inl hax
      · exact Or.inr h2

theorem insertRevAux_pairwise {α : Type} {lt : α → α → Bool}
    (hasym : ∀ a b, lt a b = true → lt b a = false)
    (hnt : ∀ a b c, lt a b = false → lt b c = false → lt a c = false)
    {x : α} {r : List α}
    (h : r.Pairwise (fun a b => lt a b = false)) :
    (insertRevAux lt x r).Pairwise (fun a b => lt a b = false) := by
  induction r with
  | nil => simp [insertRevAux]
  | cons y ys ih =>
    rw [insertRevAux]
    rcases List.pairwise_cons.mp h with ⟨hy, hys⟩
    by_cases hxy : lt x y = true
    · rw [if_pos hxy]
      refine List.pairwise_cons.mpr ⟨?_, ih hys⟩
      intro a ha
      rcases mem_insertRevAux ha with hax | har
      · subst hax
        exact hasym _ _ hxy
      · exact hy a har
    · rw [if_neg hxy]
      have hxyf : lt x y = false := by
        cases hlt : lt x y with
        | false => rfl
        | true => exact absurd hlt hxy
      refine List.pairwise_cons.mpr ⟨?_, h⟩
      intro a ha
      rcases List.mem_cons.mp ha with hay | has
      · subst hay
        exact hxyf
      · exact hnt x y a hxyf (hy a has)

theorem insertRevAux_filter_neg {α : Type} {lt : α → α → Bool}
    {q : α → Bool} {x : α} (hqx : q x = false) (r : List α) :
    (insertRevAux lt x r).filter q = r.filter q := by
  induction r with
  | nil => simp [insertRevAux, hqx]
  | cons y ys ih =>
    rw [insertRevAux]
    by_cases hxy : lt x y = true
    · rw [if_pos hxy]
      cases hqy : q y with
      | false => simpa [List.filter_cons, hqy] using ih
      | true => simpa [List.filter_cons, hqy] using ih
    · rw [if_neg hxy]
      simp [List.filter_cons, hqx]

theorem insertRevAux_filter_pos {α : Type} {lt : α → α → Bool}
    {q : α → Bool} {x : α} (hqx : q x = true)
    (hpass : ∀ y, lt x y = true → q y = false) (r : List α) :
    (insertRevAux lt x r).filter q = x :: r.filter q := by
  induction r with
  | nil => simp [insertRevAux, hqx]
  | cons y ys ih =>
    rw [insertRevAux]
    by_cases hxy : lt x y = true
    · rw [if_pos hxy]
      have hqy : q y = false := hpass y hxy
      simpa [List.filter_cons, hqy] using ih
    · rw [if_neg hxy]
      simp [List.filter_cons, hqx]

theorem foldl_insert_pairwise {α : Type} {lt : α → α → Bool}
    (hasym : ∀ a b, lt a b = true → lt b a = false)
    (hnt : ∀ a b c, lt a b = false → lt b c = false → lt a c = false)
    (l : List α) :
    ∀ acc : List α, acc.Pairwise (fun a b => lt a b = false) →
      (l.foldl (fun accRev x => insertRevAux lt x accRev) acc).Pairwise
        (fun a b => lt a b = false) := by
  induction l with
  | nil => intro acc h; simpa using h
  | cons x xs ih =>
    intro acc h
    exact ih _ (insertRevAux_pairwise hasym hnt h)

theorem foldl_insert_filter {α : Type} {lt : α → α → Bool} {q : α → Bool}
    (l : List α)
    (hcl : ∀ x ∈ l, q x = true → ∀ y, lt x y = true → q y = false) :
    ∀ acc : List α,
      (l.foldl (fun accRev x => insertRevAux lt x accRev) acc).filter q =
        (l.filter q).reverse ++ acc.filter q := by
  induction l with
  | nil => intro acc; simp
  | cons x xs ih =>
    intro acc
    have hxs : ∀ z ∈ xs, q z = true → ∀ y, lt z y = true → q y = false :=
      fun z hz => hcl z (List.mem_cons_of_mem _ hz)
    cases hqx : q x with
    | false =>
      have := ih hxs (insertRevAux lt x acc)
      rw [List.foldl_cons, this, insertRevAux_filter_neg hqx,
        List.filter_cons, hqx]
      simp
    | true =>
      have := ih hxs (insertRevAux lt x acc)
      rw [List.foldl_cons, this,
        insertRevAux_filter_pos hqx (hcl x (List.mem_cons_self _ _) hqx),
        List.filter_cons, hqx]
      simp

theorem goInsertionSort_pairwise {α : Type} {lt : α → α → Bool}
    (hasym : ∀ a b, lt a b = true → lt b a = false)
    (hnt : ∀ a b c, lt a b = false → lt b c = false → lt a c = false)
    (l : List α) :
    (goInsertionSort lt l).Pairwise (fun a b => lt b a = false) := by
  unfold goInsertionSort
  rw [List.pairwise_reverse]
  exact foldl_insert_pairwise hasym hnt l [] (by simp)

theorem goInsertionSort_filter {α : Type} {lt : α → α → Bool} {q : α → Bool}
    (l : List α)
    (hcl : ∀ x ∈ l, q x = true → ∀ y, lt x y = true → q y = false) :
    (goInsertionSort lt l).filter q = l.filter q := by
  unfold goInsertionSort
  rw [List.filter_reverse, foldl_insert_filter l hcl []]
  simp

theorem lessRes_asym (a b : TRes) : lessRes a b = true → lessRes b a = false := by
  unfold lessRes
  cases hsa : a.success <;> cases hsb : b.success <;> intro h <;>
    simp_all <;> omega

theorem lessRes_neg_trans (a b c : TRes) :
    lessRes a b = false → lessRes b c = false → lessRes a c = false := by
  unfold lessRes
  cases hsa : a.success <;> cases hsb : b.success <;> cases hsc : c.success <;>
    intro h1 h2 <;> simp_all <;> omega

theorem lessRes_fail_left {a : TRes} (h : a.success = false) (b : TRes) :
    lessRes a b = false := by
  unfold lessRes
  simp [h]

end Raycoon

namespace Raycoon

theorem filter_length_split {α : Type} (q : α → Bool) (l : List α) :
    (l.filter q).length + (l.filter (fun a => !q a)).length = l.length := by
  induction l with
  | nil => rfl
  | cons x xs ih =>
    cases hq : q x <;> simp [List.filter_cons, hq] <;> omega

end Raycoon

section C7

open Raycoon

/-- C7 (amended): for every batch whose size is within `sort.Slice`'s
stable insertion-sort regime (≤ 12), `TestBatch` returns all successful
results before all failed results, successes in ascending latency order,
ties (equal-latency successes, and all failures) in their *input* order
— not their completion order, on which the returned value does not
depend — and `Tested = Succeeded + Failed`; the spec's example batch
(120 ms, 45 ms, failure, 80 ms) yields [45, 80, 120, fail] with
tested=4, succeeded=3, failed=1. -/
theorem testBatch_sort_properties (outcomes : List (Nat × Option Nat))
    (hlen : outcomes.length ≤ 12) :
    (∀ i j : Fin (testBatchGo outcomes).results.length, i < j →
      ((testBatchGo outcomes).results.get i).success = false →
      ((testBatchGo outcomes).results.get j).success = false) ∧
    (∀ i j : Fin (testBatchGo outcomes).results.length, i < j →
      ((testBatchGo outcomes).results.get i).success = true →
      ((testBatchGo outcomes).results.get j).success = true →
      ((testBatchGo outcomes).results.get i).latency.getD 0 ≤
        ((testBatchGo outcomes).results.get j).latency.getD 0) ∧
    ((testBatchGo outcomes).results.filter (fun r => !r.success) =
      (outcomes.map (fun o => testSingleRow o.1 o.2)).filter
        (fun r => !r.success)) ∧
    (∀ m : Nat,
      (testBatchGo outcomes).results.filter
          (fun r => r.success && r.latency == some m) =
        (outcomes.map (fun o => testSingleRow o.1 o.2)).filter
          (fun r => r.success && r.latency == some m)) ∧
    (testBatchGo outcomes).tested =
      (testBatchGo outcomes).succeeded + (testBatchGo outcomes).failed ∧
    testBatchGo [(1, some 120), (2, some 45), (3, none), (4, some 80)] =
      ⟨[⟨2, true, some 45⟩, ⟨4, true, some 80⟩, ⟨1, true, some 120⟩,
        ⟨3, false, none⟩], 4, 3, 1⟩ := by
  have hpair : (testBatchGo outcomes).results.Pairwise
      (fun a b => lessRes b a = false) := by
    unfold testBatchGo
    exact goInsertionSort_pairwise lessRes_asym lessRes_neg_trans _
  have hget := List.pairwise_iff_get.mp hpair
  refine ⟨?_, ?_, ?_, ?_, ?_, by rfl⟩
  · intro i j hij hfi
    have hij2 := hget i j hij
    cases hsj : ((testBatchGo outcomes).results.get j).success with
    | false => rfl
    | true =>
      unfold lessRes at hij2
      rw [hsj, hfi] at hij2
      simp at hij2
  · intro i j hij hsi hsj
    have hij2 := hget i j hij
    unfold lessRes at hij2
    rw [hsi, hsj] at hij2
    simp only [List.get_eq_getElem] at hij2 ⊢
    simp at hij2
    omega
  · unfold testBatchGo
    apply goInsertionSort_filter
    intro x _ hqx y hy
    rw [lessRes_fail_left (by simpa using hqx) y] at hy
    exact absurd hy (by simp)
  · intro m
    unfold testBatchGo
    apply goInsertionSort_filter
    intro x _ hqx y hy
    simp only [Bool.and_eq_true] at hqx
    obtain ⟨hxs, hxl⟩ := hqx
    cases hqy : (y.success && y.latency == some m) with
    | false => rfl
    | true =>
      simp only [Bool.and_eq_true] at hqy
      obtain ⟨hys, hyl⟩ := hqy
      unfold lessRes at hy
      rw [hxs, hys] at hy
      simp only [beq_iff_eq] at hxl hyl
      rw [hxl, hyl] at hy
      simp at hy
  · unfold testBatchGo
    exact (filter_length_split _ _).symm

/-- C7 counterexample: the claim orders ties by completion order.  With
two failing endpoints (input ids 1 then 2) and the completion order in
which the second input finishes first, the claim requires the failures
to appear as [2, 1]; `TestBatch` returns them in input order [1, 2],
because results are stored at input indices before the sort. -/
theorem testBatch_not_completion_order :
    (testBatchSched [(1, none), (2, none)] [1, 0]).results.map
        (fun r => r.cfgID) = [1, 2] ∧
    ([1, 2] : List Nat) ≠ [2, 1] :=
  ⟨by rfl, by decide⟩

/-- C7 witness: the theorem applies to the spec's four-endpoint example
batch and yields its expected sorted result. -/
theorem testBatch_sort_properties_witness :
    ([(1, some 120), (2, some 45), (3, none), (4, some 80)] :
        List (Nat × Option Nat)).length ≤ 12 ∧
    testBatchGo [(1, some 120), (2, some 45), (3, none), (4, some 80)] =
      ⟨[⟨2, true, some 45⟩, ⟨4, true, some 80⟩, ⟨1, true, some 120⟩,
        ⟨3, false, none⟩], 4, 3, 1⟩ :=
  ⟨by decide,
   (testBatch_sort_properties
      [(1, some 120), (2, some 45), (3, none), (4, some 80)]
      (by decide)).2.2.2.2.2⟩

end C7

namespace Raycoon

/- ## Config payload models (src/internal/storage/models/connection.go)

The protocol parsers marshal these structs to JSON blobs on the Config
and the consumers unmarshal them back; within one process
`unmarshal ∘ marshal` restores the struct exactly, so we model the blobs
as the structs themselves.  The `WSHeaders`/`HTTPHeaders` maps are only
ever written and read at their `"Host"` key (a single value), modeled as
an optional host string. -/

/-- `models.TransportConfig`. -/
structure TransportCfg where
  wsPath : GoStr
  wsHost : Option GoStr
  grpcServiceName : GoStr
  grpcMode : GoStr
  httpPath : GoStr
  httpHost : Option GoStr
  quicKey : GoStr
  quicSecurity : GoStr
  deriving DecidableEq, Repr

/-- The zero `TransportConfig`. -/
def emptyTransport : TransportCfg :=
  { wsPath := []
    wsHost := none
    grpcServiceName := []
    grpcMode := []
    httpPath := []
    httpHost := none
    quicKey := []
    quicSecurity := [] }

/-- `models.TLSConfig`. -/
structure TLSCfg where
  serverName : GoStr
  alpn : List GoStr
  allowInsecure : Bool
  fingerprint : GoStr
  publicKey : List GoStr
  shortID : GoStr
  spiderX : GoStr
  deriving DecidableEq, Repr

/-- The zero `TLSConfig`. -/
def emptyTLS : TLSCfg :=
  { serverName := []
    alpn := []
    allowInsecure := false
    fingerprint := []
    publicKey := []
    shortID := []
    spiderX := [] }

/-- `models.AuthConfigVMess`. -/
structure AuthVM where
  uuid : GoStr
  alterID : Int
  security : GoStr
  deriving DecidableEq, Repr

/- ## VMess parser (src/unnamed/part_016, `VMessParser.Parse`)

A VMess URI is `vmess://base64(JSON)`; we embed `Parse` from the decoded
`vmessJSON` value on.  `Port` and `AID` are `interface{}` in the JSON:
after `encoding/json`, a number arrives as a numeric value, a string as
a string, an absent field as nil. -/

/-- A decoded `interface{}` JSON field value. -/
inductive JVal where
  | num (n : Int)
  | str (s : GoStr)
  | null
  | other
  deriving DecidableEq, Repr

/-- Digit-string accumulator for `strconv.Atoi`. -/
def digitsToNatAux : List Nat → Nat → Option Nat
  | [], acc => some acc
  | b :: rest, acc =>
    if 48 ≤ b && b ≤ 57 then digitsToNatAux rest (acc * 10 + (b - 48))
    else none

/-- All-digit string to `Nat` (none when empty or non-digit). -/
def digitsToNat (s : GoStr) : Option Nat :=
  if s.isEmpty then none else digitsToNatAux s 0

/-- `strconv.Atoi`: optional sign then digits.  (Overflow of the 64-bit
range is not modeled; every value appearing here is small.) -/
def goAtoi (s : GoStr) : Option Int :=
  match s with
  | [] => none
  | b :: rest =>
    if b == 43 then (digitsToNat rest).map (fun n => (n : Int))
    else if b == 45 then (digitsToNat rest).map (fun n => -(n : Int))
    else (digitsToNat s).map (fun n => (n : Int))

/-- `parsePort` (src/unnamed/part_016 lines 266–281). -/
def parsePort : JVal → Option Int
  | .num n => some n
  | .str s => goAtoi s
  | _ => none

/-- `parseAlterID` (src/unnamed/part_016 lines 283–305). -/
def parseAlterID : JVal → Option Int
  | .null => some 0
  | .num n => some n
  | .str s => if s.isEmpty then some 0 else goAtoi s
  | .other => none

/-- `strings.Split(s, ",")`. -/
def goSplitComma (s : GoStr) : List GoStr :=
  s.splitOn 44

/-- Digit expansion with structural fuel (`n < fuel` always holds at the
call sites, so the `fuel = 0` branch is unreachable). -/
def natDigitsAux : Nat → Nat → GoStr
  | 0, _ => []
  | fuel + 1, n =>
    if n < 10 then [48 + n] else natDigitsAux fuel (n / 10) ++ [48 + n % 10]

/-- The decimal digit bytes of `n`, most significant first. -/
def natDigits (n : Nat) : GoStr :=
  natDigitsAux (n + 1) n

/-- `fmt.Sprintf("%d", n)` for a non-negative value. -/
def goItoaNat (n : Nat) : GoStr :=
  natDigits n

/-- `fmt.Sprintf("%d", n)` for an `int`. -/
def goItoaInt (n : Int) : GoStr :=
  if n < 0 then 45 :: goItoaNat n.natAbs else goItoaNat n.natAbs

/-- The decoded `vmessJSON` struct (src/unnamed/part_016 lines 17–33);
`typ` models the `Type` field. -/
structure VmessJSON where
  ps : GoStr
  add : GoStr
  port : JVal
  id : GoStr
  aid : JVal
  scy : GoStr
  net : GoStr
  typ : GoStr
  host : GoStr
  path : GoStr
  tls : GoStr
  sni : GoStr
  alpn : GoStr
  fp : GoStr
  deriving DecidableEq, Repr

/-- The fields of a parsed VMess `models.Config` the parser is
responsible for (`URI` and `Enabled=true` omitted). -/
structure ConfigVM where
  name : GoStr
  address : GoStr
  port : Int
  network : GoStr
  auth : AuthVM
  transport : TransportCfg
  tlsEnabled : Bool
  tls : TLSCfg
  deriving DecidableEq, Repr

/-- `VMessParser.Parse` (src/unnamed/part_016 lines 39–160) from the
decoded JSON value on: convert port and alterID, default the network to
tcp, default an empty security to "auto", fill the transport block by
network type, enable TLS iff `tls == "tls"`, and derive the name. -/
def vmessParse (vj : VmessJSON) : Option ConfigVM := do
  let port ← parsePort vj.port
  let alterID ← parseAlterID vj.aid
  let network := if vj.net.isEmpty then gs "tcp" else vj.net
  let security := if vj.scy.isEmpty then gs "auto" else vj.scy
  let transport :=
    if network == gs "ws" then
      { emptyTransport with
        wsPath := vj.path
        wsHost := if vj.host.isEmpty then none else some vj.host }
    else if network == gs "grpc" then
      { emptyTransport with
        grpcServiceName := vj.path
        grpcMode := vj.typ }
    else if network == gs "http" || network == gs "h2" then
      { emptyTransport with
        httpPath := vj.path
        httpHost := if vj.host.isEmpty then none else some vj.host }
    else if network == gs "quic" then
      { emptyTransport with
        quicKey := vj.path
        quicSecurity := vj.host }
    else emptyTransport
  let tlsEnabled := vj.tls == gs "tls"
  let tls :=
    if tlsEnabled then
      { emptyTLS with
        serverName := vj.sni
        fingerprint := vj.fp
        alpn := if vj.alpn.isEmpty then [] else goSplitComma vj.alpn }
    else emptyTLS
  let name := if vj.ps.isEmpty then vj.add ++ 58 :: goItoaInt port else vj.ps
  some
    { name := name
      address := vj.add
      port := port
      network := network
      auth := { uuid := vj.id, alterID := alterID, security := security }
      transport := transport
      tlsEnabled := tlsEnabled
      tls := tls }

/- ## VMess engine settings (src/internal/core/xray/config.go) -/

/-- One element of the vmess `users` array. -/
structure VMessUser where
  id : GoStr
  alterId : Int
  security : GoStr
  deriving DecidableEq, Repr

/-- The single `vnext[0]` object. -/
structure VMessVnext where
  address : GoStr
  port : Int
  users : List VMessUser
  deriving DecidableEq, Repr

/-- `generateVMessSettings` (xray/config.go lines 407–427): unmarshal
the auth blob and emit
`vnext[0] = {address, port, users:[{id, alterId, security}]}` — the
security value is copied verbatim from the blob. -/
def generateVMessSettings (c : ConfigVM) : VMessVnext :=
  { address := c.address
    port := c.port
    users := [{ id := c.auth.uuid
                alterId := c.auth.alterID
                security := c.auth.security }] }

end Raycoon

section C9

open Raycoon

/-- C9 counterexample: an endpoint whose auth blob carries an empty
security is emitted with an empty — not "auto" — security by the
builder. -/
theorem vmess_builder_emits_empty_security :
    (generateVMessSettings
        { name := gs "x"
          address := gs "example.com"
          port := 443
          network := gs "tcp"
          auth := { uuid := gs "u", alterID := 0, security := [] }
          transport := emptyTransport
          tlsEnabled := false
          tls := emptyTLS }).users.map (fun u => u.security) = [[]] ∧
    ([] : GoStr) ≠ gs "auto" :=
  ⟨rfl, by decide⟩

/-- C9 (amended): the engine-config builder emits
`vnext[0] = {address, port, users:[{id, alterId, security}]}` with the
security copied verbatim from the endpoint's auth blob; the defaulting
of an empty security to "auto" happens when the endpoint is created by
`VMessParser.Parse`, so every parser-produced vmess endpoint carries a
non-empty security, equal to "auto" exactly when the URI's `scy` field
was empty. -/
theorem vmess_security_default_at_parse (c : ConfigVM) (vj : VmessJSON)
    (hp : vmessParse vj = some c) :
    generateVMessSettings c =
      { address := c.address
        port := c.port
        users := [{ id := c.auth.uuid
                    alterId := c.auth.alterID
                    security := c.auth.security }] } ∧
    c.auth.security ≠ [] ∧
    (vj.scy = [] → c.auth.security = gs "auto") ∧
    (vj.scy ≠ [] → c.auth.security = vj.scy) := by
  have hc : c.auth.security = (if vj.scy.isEmpty then gs "auto" else vj.scy) := by
    unfold vmessParse at hp
    cases hport : parsePort vj.port with
    | none => rw [hport] at hp; exact absurd hp (by simp)
    | some port =>
      rw [hport] at hp
      cases haid : parseAlterID vj.aid with
      | none => rw [haid] at hp; exact absurd hp (by simp)
      | some aid =>
        rw [haid] at hp
        simp only [Option.bind_eq_bind, Option.some_bind,
          Option.some.injEq] at hp
        subst hp
        rfl
  refine ⟨rfl, ?_, ?_, ?_⟩
  · rw [hc]
    cases vj.scy with
    | nil => simp [List.isEmpty]; decide
    | cons b rest => simp [List.isEmpty]
  · intro hnil
    rw [hc, hnil]
    rfl
  · intro hne
    rw [hc]
    cases hs : vj.scy with
    | nil => exact absurd hs hne
    | cons b rest => simp [List.isEmpty]

/-- C9 witness: the amended theorem applies to a concrete parsed VMess
JSON with an empty `scy`, whose endpoint carries security "auto". -/
theorem vmess_security_default_at_parse_witness :
    vmessParse ⟨gs "n", gs "a.example", .num 443, gs "u", .null, [], [], [],
        [], [], [], [], [], []⟩ =
      some { name := gs "n"
             address := gs "a.example"
             port := 443
             network := gs "tcp"
             auth := { uuid := gs "u", alterID := 0, security := gs "auto" }
             transport := emptyTransport
             tlsEnabled := false
             tls := emptyTLS } ∧
    (gs "auto" : GoStr) ≠ [] := by
  refine ⟨by rfl, ?_⟩
  have h := vmess_security_default_at_parse
    { name := gs "n"
      address := gs "a.example"
      port := 443
      network := gs "tcp"
      auth := { uuid := gs "u", alterID := 0, security := gs "auto" }
      transport := emptyTransport
      tlsEnabled := false
      tls := emptyTLS }
    ⟨gs "n", gs "a.example", .num 443, gs "u", .null, [], [], [], [], [], [],
      [], [], []⟩ (by rfl)
  exact h.2.1

end C9

namespace Raycoon

/- ## net/url escaping (`url.QueryEscape` / `url.QueryUnescape`)

`VLESSParser` itself calls these two on the fragment/name, so they are
embedded here.  `QueryEscape` keeps the unreserved bytes
`A–Z a–z 0–9 - _ . ~`, turns a space into `+`, and percent-encodes every
other byte with uppercase hex; `QueryUnescape` is its inverse. -/

/-- Value of a hex digit byte (both cases). -/
def hexVal (b : Nat) : Option Nat :=
  if 48 ≤ b && b ≤ 57 then some (b - 48)
  else if 65 ≤ b && b ≤ 70 then some (b - 55)
  else if 97 ≤ b && b ≤ 102 then some (b - 87)
  else none

/- `url.QueryUnescape`: a `+` decodes to a space, `%XX` to the byte
`XX`; a malformed percent escape is a failure. -/
mutual

/-- `url.QueryUnescape`. -/
def queryUnescape : GoStr → Option GoStr
  | [] => some []
  | b :: rest =>
    if b == 37 then queryUnescapePct rest
    else if b == 43 then (queryUnescape rest).map (fun t => 32 :: t)
    else (queryUnescape rest).map (fun t => b :: t)
termination_by s => s.length

/-- The two hex digits following a `%`. -/
def queryUnescapePct : GoStr → Option GoStr
  | h1 :: h2 :: rest2 => do
    let d1 ← hexVal h1
    let d2 ← hexVal h2
    let t ← queryUnescape rest2
    pure ((d1 * 16 + d2) :: t)
  | _ => none
termination_by s => s.length

end

end Raycoon

namespace Raycoon

end Raycoon

namespace Raycoon

/- ## VLESS parser (src/internal/config/parser/vless.go)

`Parse` begins with `url.Parse(uri)`; we embed it from the parsed-URL
components on: the decoded `Username()`, `Hostname()`, `Port()` and
`Fragment`, and the query seen through `Query().Get` (first value per
key, `""` when absent), modeled as a function from key to value. -/

/-- The empty query. -/
def qempty : GoStr → GoStr := fun _ => []

/-- The components of `url.Parse` of a `vless://` URI. -/
structure URLParts where
  username : GoStr
  hostname : GoStr
  portStr : GoStr
  query : GoStr → GoStr
  fragment : GoStr

/-- The fields of a parsed VLESS `models.Config` the parser is
responsible for (protocol is the constant "vless"; `URI` and
`Enabled=true` omitted); `uuid`/`flow` are the `AuthConfigVLESS`
blob. -/
structure ConfigVL where
  name : GoStr
  address : GoStr
  port : Int
  network : GoStr
  uuid : GoStr
  flow : GoStr
  transport : TransportCfg
  tlsEnabled : Bool
  tls : TLSCfg
  deriving DecidableEq, Repr

/-- `VLESSParser.Parse` (vless.go lines 19–145) from the parsed-URL
components on: require a UUID, hostname and port; `strconv.Atoi` the
port (no range check); default the network to tcp; fill the transport
block by network; enable TLS iff `security` is `tls` or `reality`,
reality extras only under `security=reality`; take the name from the
unescaped fragment (an unescape error is discarded, leaving `""`) or
generate `address:port`. -/
def vlessParse (u : URLParts) : Option ConfigVL :=
  if u.username.isEmpty then none
  else if u.hostname.isEmpty || u.portStr.isEmpty then none
  else
    match goAtoi u.portStr with
    | none => none
    | some port =>
      let network0 := u.query (gs "type")
      let network := if network0.isEmpty then gs "tcp" else network0
      let transport :=
        if network == gs "ws" then
          { emptyTransport with
            wsPath := u.query (gs "path")
            wsHost :=
              if (u.query (gs "host")).isEmpty then none
              else some (u.query (gs "host")) }
        else if network == gs "grpc" then
          { emptyTransport with
            grpcServiceName := u.query (gs "serviceName")
            grpcMode := u.query (gs "mode") }
        else if network == gs "http" || network == gs "h2" then
          { emptyTransport with
            httpPath := u.query (gs "path")
            httpHost :=
              if (u.query (gs "host")).isEmpty then none
              else some (u.query (gs "host")) }
        else if network == gs "quic" then
          { emptyTransport with
            quicKey := u.query (gs "key")
            quicSecurity := u.query (gs "security") }
        else emptyTransport
      let security := u.query (gs "security")
      let tlsEnabled := security == gs "tls" || security == gs "reality"
      let tls :=
        if tlsEnabled then
          let base :=
            { emptyTLS with
              serverName := u.query (gs "sni")
              fingerprint := u.query (gs "fp")
              alpn :=
                if (u.query (gs "alpn")).isEmpty then []
                else goSplitComma (u.query (gs "alpn")) }
          if security == gs "reality" then
            { base with
              publicKey :=
                if (u.query (gs "pbk")).isEmpty then []
                else [u.query (gs "pbk")]
              shortID := u.query (gs "sid")
              spiderX := u.query (gs "spx") }
          else base
        else emptyTLS
      let name :=
        if u.fragment.isEmpty then u.hostname ++ 58 :: goItoaInt port
        else (queryUnescape u.fragment).getD []
      some
        { name := name
          address := u.hostname
          port := port
          network := network
          uuid := u.username
          flow := u.query (gs "flow")
          transport := transport
          tlsEnabled := tlsEnabled
          tls := tls }

/-- `VLESSParser.Validate` (vless.go lines 254–277): protocol, address,
port range 1–65535, UUID.  (Dead code: nothing in the repository calls
it.) -/
def vlessValidate (c : ConfigVL) : Bool :=
  !c.address.isEmpty && (decide (0 < c.port) && decide (c.port ≤ 65535)) &&
    !c.uuid.isEmpty

end Raycoon

section C8

open Raycoon

/-- C8 (code bug): parsing `vless://u@example.com:0` and
`vless://u@example.com:65536` through the registry succeeds —
`VLESSParser.Parse` converts the port with `strconv.Atoi` and applies no
range check, and `Registry.Parse` never calls `Validate` — producing
endpoints with ports 0 and 65536 that `Validate` itself would reject. -/
theorem vless_out_of_range_port_parses :
    vlessParse ⟨gs "u", gs "example.com", gs "0", qempty, []⟩ =
      some { name := gs "example.com:0"
             address := gs "example.com"
             port := 0
             network := gs "tcp"
             uuid := gs "u"
             flow := []
             transport := emptyTransport
             tlsEnabled := false
             tls := emptyTLS } ∧
    vlessParse ⟨gs "u", gs "example.com", gs "65536", qempty, []⟩ =
      some { name := gs "example.com:65536"
             address := gs "example.com"
             port := 65536
             network := gs "tcp"
             uuid := gs "u"
             flow := []
             transport := emptyTransport
             tlsEnabled := false
             tls := emptyTLS } ∧
    vlessValidate { name := gs "example.com:0"
                    address := gs "example.com"
                    port := 0
                    network := gs "tcp"
                    uuid := gs "u"
                    flow := []
                    transport := emptyTransport
                    tlsEnabled := false
                    tls := emptyTLS } = false ∧
    vlessValidate { name := gs "example.com:65536"
                    address := gs "example.com"
                    port := 65536
                    network := gs "tcp"
                    uuid := gs "u"
                    flow := []
                    transport := emptyTransport
                    tlsEnabled := false
                    tls := emptyTLS } = false := by
  refine ⟨?_, ?_, by rfl, by rfl⟩ <;> rfl

end C8

section C4

open Raycoon

end C4

namespace Raycoon

end Raycoon

namespace Raycoon

end Raycoon

namespace Raycoon

end Raycoon


namespace Raycoon

end Raycoon

namespace Raycoon

end Raycoon
